import Mathlib

set_option maxRecDepth 100000

/-
Verification of the mpFileCopy leaf-copy dispatcher (src/mpFileCopy.py).

This file shallowly embeds the program:

- the ERR status enumeration (lines 21-26);
- the fixed ignore list m_ignoreFiles (lines 43-50);
- recursive leaf discovery findAllLeafNodes (lines 79-94), over an explicit
  directory-tree datatype; relative paths are modelled as lists of path
  segments (os.path.join of a path and a child name appends one segment,
  os.path.basename takes the last segment);
- the queue file functions loadQueue (lines 215-236) and updateQueueFile
  (lines 238-245), over file contents modelled as lists of characters;
  os.linesep is the POSIX newline;
- the per-file copy task rsyncFile (lines 96-152): the rsync command line
  construction, the post-subprocess control flow, and the throughput
  computation (rationals stand in for Python floats: the claims at stake
  concern the branch structure, not rounding);
- the threaded dispatcher mpRsyncCopy together with waitForFreeThread
  (lines 161-213), as a small-step transition system: worker threads finish
  nondeterministically, the dispatcher's scan retires finished threads, and
  a new thread is dispatched only after the wait loop has observed fewer
  than m_threads live workers;
- the top-level run (lines 247-278), over an abstract filesystem world;
  the out-of-scope collaborators (os.path.realpath, existence tests,
  os.makedirs success) are parameters of that world.
-/

-- ERR enumeration, lines 21-26.

inductive ERR where
  | OK
  | SOURCE_PATH_DOES_NOT_EXIST
  | TARGET_PATH_DOES_NOT_EXIST
  | SOURCE_TARGET_MISMATCH
  | PERMISSION_ERROR
deriving DecidableEq

-- Python exceptions that can escape the embedded fragments (os.makedirs
-- failing with PermissionError / OSError is the one the claims mention).

inductive PyExc where
  | osError
deriving DecidableEq

-- ===================== Leaf discovery (lines 79-94) =====================

-- A directory tree: what os.path.isdir and os.listdir reveal below the
-- source root.  Children are kept in the directory's listing order.  The
-- two types are mutually inductive so that all recursions stay structural.

mutual
inductive FSNode where
  | file (name : String)
  | dir (name : String) (children : FSChildren)
deriving DecidableEq
inductive FSChildren where
  | nil
  | cons (head : FSNode) (tail : FSChildren)
deriving DecidableEq
end

def FSNode.name : FSNode → String
  | .file n => n
  | .dir n _ => n

-- A relative path, as a list of path segments: os.path.join(currentPath,
-- child) appends the segment child, starting from the empty path "".

abbrev SegPath := List String

-- os.path.basename of a segment path: the final segment ("" at the root).

def pathBasename (p : SegPath) : String := p.getLastD ""

-- m_ignoreFiles, lines 43-50.

def m_ignoreFiles : List String :=
  [".DocumentRevisions-V100",
   ".Spotlight-V100",
   ".TemporaryItems",
   ".Trashes",
   ".fseventsd",
   ".DS_Store",
   ".apdisk"]

-- findAllLeafNodes, lines 79-94: skip a path whose basename is ignored;
-- recurse through a directory's children in listing order; otherwise emit
-- the current path as a leaf.  The source recurses through the filesystem
-- by path; the embedding recurses through the tree node reached by that
-- path.

mutual
def findAllLeafNodes (ignore : List String) (cur : SegPath) (t : FSNode) : List SegPath :=
  if pathBasename cur ∈ ignore then []
  else
    match t with
    | .file _ => [cur]
    | .dir _ cs => findAllLeafChildren ignore cur cs
def findAllLeafChildren (ignore : List String) (cur : SegPath) (cs : FSChildren) : List SegPath :=
  match cs with
  | .nil => []
  | .cons c rest =>
      findAllLeafNodes ignore (cur ++ [c.name]) c ++ findAllLeafChildren ignore cur rest
end

-- Every name occurring in a tree (the root's own name included).

mutual
def FSNode.allNames : FSNode → List String
  | .file n => [n]
  | .dir n cs => n :: cs.allNames
def FSChildren.allNames : FSChildren → List String
  | .nil => []
  | .cons c rest => c.allNames ++ rest.allNames
end

-- Spec-side description of discovery (section 8, "Discovery correctness"):
-- the non-directory files of the tree, each at its path relative to the
-- root, in depth-first order following each directory's listing order,
-- with no filtering at all.  Kept separate from findAllLeafNodes so the
-- two can be compared.

mutual
def specLeafPaths (cur : SegPath) (t : FSNode) : List SegPath :=
  match t with
  | .file _ => [cur]
  | .dir _ cs => specLeafChildren cur cs
def specLeafChildren (cur : SegPath) (cs : FSChildren) : List SegPath :=
  match cs with
  | .nil => []
  | .cons c rest => specLeafPaths (cur ++ [c.name]) c ++ specLeafChildren cur rest
end

-- ================= Queue file (lines 215-236 and 238-245) ================

-- File contents are lists of characters.  Python's str.strip() removes
-- Unicode whitespace from both ends: the characters CPython's
-- Py_UNICODE_ISSPACE accepts, namely U+0009..U+000D, U+001C..U+001F,
-- the space, U+0085, U+00A0, U+1680, U+2000..U+200A, U+2028, U+2029,
-- U+202F, U+205F and U+3000.

def isPySpace (c : Char) : Bool :=
  c = ' ' || c = '\t' || c = '\n' || c = '\x0b' || c = '\x0c' || c = '\r' ||
  c = '\x1c' || c = '\x1d' || c = '\x1e' || c = '\x1f' ||
  c = '\x85' || c = '\xa0' || c = '\u1680' ||
  ('\u2000' ≤ c && c ≤ '\u200A') ||
  c = '\u2028' || c = '\u2029' || c = '\u202F' || c = '\u205F' || c = '\u3000'

def pyLstrip (l : List Char) : List Char := l.dropWhile isPySpace

def pyRstrip (l : List Char) : List Char := (l.reverse.dropWhile isPySpace).reverse

def pyStrip (l : List Char) : List Char := pyLstrip (pyRstrip l)

-- Iterating a Python text file yields its lines, each keeping its
-- trailing newline (the final line may lack one).

def pyLinesAux : List Char → List Char → List (List Char)
  | [], acc => if acc = [] then [] else [acc.reverse]
  | c :: r, acc =>
      if c = '\n' then (acc.reverse ++ ['\n']) :: pyLinesAux r []
      else pyLinesAux r (c :: acc)

def pyLines (cs : List Char) : List (List Char) := pyLinesAux cs []

-- Opening a file in text mode reads with universal newlines: "\r\n" and
-- a lone "\r" are both translated to "\n" before the stream is split
-- into lines.  (Writing on POSIX performs no translation.)

def univNewlines : List Char → List Char
  | [] => []
  | [c] => if c = '\r' then ['\n'] else [c]
  | c :: c2 :: r =>
      if c = '\r' then
        (if c2 = '\n' then '\n' :: univNewlines r
         else '\n' :: univNewlines (c2 :: r))
      else c :: univNewlines (c2 :: r)

-- updateQueueFile, lines 238-245: rewrite the queue file with one entry
-- per line, each terminated by os.linesep ("\n" on POSIX).  The value is
-- the file content written.

def updateQueueFile (queue : List (List Char)) : List Char :=
  queue.flatMap (fun line => line ++ ['\n'])

-- loadQueue, lines 215-236.  The queue file is `some content` when the
-- path exists and is a regular file, `none` otherwise; `discovered` is
-- what findAllLeafNodes would produce on the fresh-discovery branch.
-- Returns (m_nodes, whether discovery ran, queue file content afterwards).

def loadQueue (file : Option (List Char)) (discovered : List (List Char)) :
    List (List Char) × Bool × List Char :=
  match file with
  | some c =>
      if c = [] then (discovered, true, updateQueueFile discovered)
      else ((pyLines (univNewlines c)).map pyStrip, false, c)
  | none => (discovered, true, updateQueueFile discovered)

-- ======================= rsyncFile (lines 96-152) =======================

-- The rsync command prefix built on lines 104-123, then split on
-- whitespace as Python str.split() does (line 132).

def cmdpre (dry move fast : Bool) : String :=
  "rsync   "
  ++ (if dry then " --dry-run " else "")
  ++ (if move then " --remove-source-files " else "")
  ++ (if !fast then " --checksum " else "")
  ++ " -v -v  --perms --links --times --itemize-changes --stats"
  ++ " --backup --suffix=.backup  --exclude=.DS_Store --exclude=.Trashes --exclude=.Trash"
  ++ " --exclude=._.Trashes --exclude=.localized --exclude=.DocumentRevisions-*"
  ++ " --exclude=.Spotlight* --exclude=.fseventsd --exclude=.apdisk"
  ++ " --exclude=.com.apple.timemachine.donotpresent --exclude=.fcplock --exclude=.fcpuser"
  ++ " --exclude=.fseventsd --exclude=.cache --exclude=._.TemporaryItems --exclude=._.apdisk"
  ++ " --exclude=.TemporaryItems"

def pySplitWsAux : List Char → List Char → List (List Char)
  | [], acc => if acc = [] then [] else [acc.reverse]
  | c :: r, acc =>
      if isPySpace c then
        (if acc = [] then pySplitWsAux r [] else acc.reverse :: pySplitWsAux r [])
      else pySplitWsAux r (c :: acc)

def pySplitWs (cs : List Char) : List (List Char) := pySplitWsAux cs []

-- cmdArr, lines 132-133: the tokenised prefix followed by the two filter
-- arguments and the source and target paths.

def rsyncCmdArr (dry move fast : Bool) (src trg : List Char) : List (List Char) :=
  pySplitWs (cmdpre dry move fast).data
    ++ ["--filter=dir-merge /.rsync.include".data,
        "--filter=dir-merge /.rsync.exclude".data, src, trg]

-- Command-line arguments relevant to the copy flags (lines 315-327) and
-- the constructor assignment self.m_dry = not args.execute (line 57).

structure CliArgs where
  execute : Bool
  move : Bool
  fast : Bool

def m_dry (a : CliArgs) : Bool := !a.execute

-- The subprocess result captured on line 134.

structure ProcResult where
  returncode : Int
  stdoutLines : List String
  stderrLines : List String

-- What one rsyncFile call produces, lines 134-152: error-level log lines,
-- info-level log lines, and the returned triple's file path.

structure RsyncOutcome where
  errorLogged : List String
  infoLogged : List String
  retFile : String
deriving DecidableEq

-- rsyncFile after subprocess.run has returned (lines 134-152): a non-zero
-- exit status only logs the captured stderr at error level; stdout is
-- always logged; the function then returns its triple.  No statement in
-- that region raises, so the embedding always yields Except.ok.

def rsyncFile (filePath : String) (res : ProcResult) : Except PyExc RsyncOutcome :=
  Except.ok
    { errorLogged := if res.returncode ≠ 0 then res.stderrLines else []
    , infoLogged := res.stdoutLines
    , retFile := filePath }

-- Throughput computation, lines 143-148, with rationals for floats.

def rateMBps (filesize delta : Rat) : Rat :=
  if delta > 0 then filesize / 1024000 / delta else 0

-- ============ Dispatcher: mpRsyncCopy + waitForFreeThread ==============
-- (lines 161-213)
--
-- The dispatcher is modelled as a transition system.  A state records the
-- dispatcher's position in mpRsyncCopy together with the thread and queue
-- bookkeeping:
--
--   pc = forCheck   : at the head of the `for src in self.m_nodes` loop;
--   pc = forWait    : inside the waitForFreeThread call that precedes the
--                     next thread start;
--   pc = drainCheck : at the `while len(copy_of_nodes) > 0` test;
--   pc = drainWait  : inside a drain-phase waitForFreeThread call (note
--                     that line 213 passes copy_of_nodes and all_threads
--                     in swapped positions, so this call scans the list
--                     copy_of_nodes and persists the list all_threads;
--                     both lists are still pruned together on line 180/190
--                     paired with line 181/191);
--   pc = done       : mpRsyncCopy has returned.
--
-- pending is the unprocessed suffix of m_nodes; alive the names of worker
-- threads started and not yet finished; dead the finished threads (with
-- the exit status of their rsync subprocess) whose names the scan has not
-- yet pruned; copyOfNodes and allThreads the two bookkeeping lists;
-- dispatched the history of thread starts; queueFile the queue-file
-- content most recently written by updateQueueFile.

inductive PC where
  | forCheck
  | forWait
  | drainCheck
  | drainWait
  | done
deriving DecidableEq

structure DState where
  pc : PC
  pending : List String
  alive : List String
  dead : List (String × Int)
  copyOfNodes : List String
  allThreads : List String
  dispatched : List String
  queueFile : List String
deriving DecidableEq

-- Initially (lines 200-202) nothing is dispatched, copy_of_nodes is a copy
-- of m_nodes, and the queue file holds the full queue (written by
-- loadQueue, line 235, or left over from the interrupted run it loaded).

def initState (nodes : List String) : DState :=
  { pc := PC.forCheck
  , pending := nodes
  , alive := []
  , dead := []
  , copyOfNodes := nodes
  , allThreads := []
  , dispatched := []
  , queueFile := nodes }

-- One dispatcher or worker step, for concurrency limit N = m_threads.

inductive Step (N : Nat) : DState → DState → Prop where
  -- a worker's rsyncFile returns (with any subprocess exit status) and its
  -- thread exits; this can happen at any dispatcher position
  | finish (s : DState) (n : String) (c : Int) (hn : n ∈ s.alive) :
      Step N s { s with alive := s.alive.erase n, dead := s.dead ++ [(n, c)] }
  -- the for loop has another node: enter waitForFreeThread (line 205)
  | forEnter (s : DState) (hpc : s.pc = PC.forCheck) (hp : s.pending ≠ []) :
      Step N s { s with pc := PC.forWait }
  -- the for loop is exhausted: fall through to the drain loop (line 211)
  | forDone (s : DState) (hpc : s.pc = PC.forCheck) (hp : s.pending = []) :
      Step N s { s with pc := PC.drainCheck }
  -- the scan inside waitForFreeThread observes a finished thread and
  -- prunes its name from copy_of_nodes and all_threads (lines 176-191);
  -- the exit status of the thread's subprocess plays no role.  The pruned
  -- dead entry is written as an explicit split d1 ++ (n, c) :: d2
  | reap (s : DState) (d1 d2 : List (String × Int)) (n : String) (c : Int)
      (hpc : s.pc = PC.forWait ∨ s.pc = PC.drainWait) (hd : s.dead = d1 ++ (n, c) :: d2) :
      Step N s { s with dead := d1 ++ d2
                      , copyOfNodes := s.copyOfNodes.erase n
                      , allThreads := s.allThreads.erase n }
  -- the wait loop of line 168 exits only once it has observed fewer than
  -- m_threads live workers; waitForFreeThread then persists copy_of_nodes
  -- (line 192) and mpRsyncCopy starts one thread for the next node
  -- (lines 207-210)
  | dispatch (s : DState) (h : String) (t : List String)
      (hpc : s.pc = PC.forWait) (hp : s.pending = h :: t) (hcap : s.alive.length < N) :
      Step N s { s with pc := PC.forCheck
                      , pending := t
                      , alive := h :: s.alive
                      , allThreads := s.allThreads ++ [h]
                      , dispatched := s.dispatched ++ [h]
                      , queueFile := s.copyOfNodes }
  -- the drain test finds copy_of_nodes non-empty: call waitForFreeThread
  -- once more (line 213)
  | drainEnter (s : DState) (hpc : s.pc = PC.drainCheck) (hne : s.copyOfNodes ≠ []) :
      Step N s { s with pc := PC.drainWait }
  -- a drain-phase waitForFreeThread call returns: its wait loop has
  -- observed fewer than m_threads live workers, and because line 213
  -- swaps the two list arguments, the persist on line 192 writes the
  -- all_threads list
  | drainPersist (s : DState) (hpc : s.pc = PC.drainWait) (hcap : s.alive.length < N) :
      Step N s { s with pc := PC.drainCheck, queueFile := s.allThreads }
  -- the drain test finds copy_of_nodes empty: mpRsyncCopy returns
  | drainExit (s : DState) (hpc : s.pc = PC.drainCheck) (he : s.copyOfNodes = []) :
      Step N s { s with pc := PC.done }

-- States a run with queue `nodes` and limit N can reach.

def Reachable (N : Nat) (nodes : List String) (s : DState) : Prop :=
  Relation.ReflTransGen (Step N) (initState nodes) s

-- The dispatcher's bookkeeping invariant.

structure DInv (nodes : List String) (s : DState) : Prop where
  disp_pending : s.dispatched ++ s.pending = nodes
  copy_eq : (s.copyOfNodes : Multiset String) =
    (s.pending : Multiset String) + (s.allThreads : Multiset String)
  threads_eq : (s.allThreads : Multiset String) =
    (s.alive : Multiset String) + ((s.dead.map Prod.fst : List String) : Multiset String)
  qf_forCheck : s.pc = PC.forCheck → s.queueFile = s.copyOfNodes
  qf_drainCheck : s.pc = PC.drainCheck →
    s.queueFile = s.copyOfNodes ∨ s.queueFile = s.allThreads
  at_done : s.pc = PC.done → s.queueFile = [] ∧ s.copyOfNodes = []
  pending_phase : s.pc = PC.forCheck ∨ s.pc = PC.forWait ∨ s.pending = []

-- ==================== Orchestrator: run (lines 247-278) =================

-- The filesystem world run consults: path canonicalisation, existence and
-- directory tests, and whether os.makedirs on the target succeeds.  Paths
-- here are character lists.

structure World where
  realpath : List Char → List Char
  pathExists : List Char → Bool
  isDir : List Char → Bool
  makedirsOk : Bool

-- os.path.basename on a character-list path: the part after the last '/'.

def pyBasename (p : List Char) : List Char :=
  p.foldl (fun acc c => if c = '/' then [] else acc ++ [c]) []

-- confirmFolderExists, lines 65-74.

def confirmFolderExists (w : World) (p : List Char) : Bool :=
  w.pathExists p && w.isDir p

-- leafNodesMatch, lines 76-77.

def leafNodesMatch (w : World) (src trg : List Char) : Bool :=
  pyBasename (w.realpath src) == pyBasename (w.realpath trg)

structure RunConfig where
  sourcePath : List Char
  targetPath : List Char
  create : Bool

-- run, lines 247-278.  The result is the ERR status together with flags
-- recording whether loadQueue ran (discovery or queue load) and whether
-- mpRsyncCopy ran (dispatch).  An uncaught exception from os.makedirs
-- (line 266) propagates out of run, modelled by Except.error.

def run (w : World) (cfg : RunConfig) : Except PyExc (ERR × Bool × Bool) :=
  if !(leafNodesMatch w cfg.sourcePath cfg.targetPath) then
    Except.ok (ERR.SOURCE_TARGET_MISMATCH, false, false)
  else if !(confirmFolderExists w cfg.sourcePath) then
    Except.ok (ERR.SOURCE_PATH_DOES_NOT_EXIST, false, false)
  else if !(confirmFolderExists w cfg.targetPath) then
    if cfg.create then
      if w.makedirsOk then Except.ok (ERR.OK, true, true)
      else Except.error PyExc.osError
    else Except.ok (ERR.TARGET_PATH_DOES_NOT_EXIST, false, false)
  else Except.ok (ERR.OK, true, true)

-- Concrete worlds and configurations used to evaluate the orchestrator
-- theorems on closed inputs.

def wNameMismatch : World :=
  ⟨fun p => p, fun _ => true, fun _ => true, true⟩

def cfgNameMismatch : RunConfig :=
  ⟨"/a/b/foo".data, "/x/y/bar".data, false⟩

def wTargetMissing : World :=
  ⟨fun p => p, fun p => p == "/s/data".data, fun p => p == "/s/data".data, true⟩

def cfgTargetMissing : RunConfig :=
  ⟨"/s/data".data, "/t/data".data, false⟩

-- A sample source tree for evaluating the discovery theorems: a root
-- directory holding a plain file, a subdirectory with one file, and two
-- ignored entries.

def sampleCleanTree : FSNode :=
  FSNode.dir "root"
    (FSChildren.cons (FSNode.file "a.txt")
      (FSChildren.cons (FSNode.dir "sub" (FSChildren.cons (FSNode.file "b.txt") FSChildren.nil))
        FSChildren.nil))

def sampleFilteredTree : FSNode :=
  FSNode.dir "root"
    (FSChildren.cons (FSNode.file "a.txt")
      (FSChildren.cons (FSNode.dir ".Trashes" (FSChildren.cons (FSNode.file "x") FSChildren.nil))
        (FSChildren.cons (FSNode.file ".DS_Store") FSChildren.nil)))

-- ======================== Helper lemmas =================================

theorem coe_append_mset {α : Type} (l₁ l₂ : List α) :
    ((l₁ ++ l₂ : List α) : Multiset α) = (l₁ : Multiset α) + (l₂ : Multiset α) :=
  (Multiset.coe_add l₁ l₂).symm

theorem coe_erase_mset {α : Type} [DecidableEq α] (l : List α) (a : α) :
    ((l.erase a : List α) : Multiset α) = (l : Multiset α).erase a :=
  (Multiset.coe_erase l a).symm

-- Every dispatcher step preserves the bookkeeping invariant.

theorem dinv_step (N : Nat) (nodes : List String) (s s2 : DState)
    (hs : DInv nodes s) (hstep : Step N s s2) : DInv nodes s2 := by
  cases hstep with
  | finish n c hn =>
      refine ⟨hs.disp_pending, hs.copy_eq, ?_, hs.qf_forCheck, hs.qf_drainCheck,
        hs.at_done, hs.pending_phase⟩
      have hmem : n ∈ (s.alive : Multiset String) := by exact_mod_cast hn
      show (s.allThreads : Multiset String) =
        ((s.alive.erase n : List String) : Multiset String)
          + (((s.dead ++ [(n, c)]).map Prod.fst : List String) : Multiset String)
      rw [List.map_append, coe_append_mset, coe_erase_mset, hs.threads_eq]
      simp only [List.map_cons, List.map_nil, Multiset.coe_singleton]
      nth_rewrite 1 [← Multiset.cons_erase hmem]
      rw [← Multiset.singleton_add]
      abel
  | forEnter hpc hp =>
      refine ⟨hs.disp_pending, hs.copy_eq, hs.threads_eq, ?_, ?_, ?_, Or.inr (Or.inl rfl)⟩
      · intro hq; exact PC.noConfusion hq
      · intro hq; exact PC.noConfusion hq
      · intro hq; exact PC.noConfusion hq
  | forDone hpc hp =>
      refine ⟨hs.disp_pending, hs.copy_eq, hs.threads_eq, ?_, ?_, ?_, Or.inr (Or.inr hp)⟩
      · intro hq; exact PC.noConfusion hq
      · intro _; exact Or.inl (hs.qf_forCheck hpc)
      · intro hq; exact PC.noConfusion hq
  | reap d1 d2 n c hpc hd =>
      have hnd : n ∈ s.dead.map Prod.fst := by rw [hd]; simp
      have hnall : n ∈ (s.allThreads : Multiset String) := by
        rw [hs.threads_eq]
        exact Multiset.mem_add.mpr (Or.inr (by exact_mod_cast hnd))
      have hdm : ((s.dead.map Prod.fst : List String) : Multiset String) =
          n ::ₘ (((d1 ++ d2).map Prod.fst : List String) : Multiset String) := by
        rw [hd]
        simp only [List.map_append, List.map_cons, coe_append_mset,
          ← Multiset.cons_coe, ← Multiset.singleton_add]
        abel
      refine ⟨hs.disp_pending, ?_, ?_, ?_, ?_, ?_, ?_⟩
      · show ((s.copyOfNodes.erase n : List String) : Multiset String) =
          (s.pending : Multiset String) + ((s.allThreads.erase n : List String) : Multiset String)
        rw [coe_erase_mset, coe_erase_mset, hs.copy_eq]
        exact Multiset.erase_add_right_pos _ hnall
      · show ((s.allThreads.erase n : List String) : Multiset String) =
          (s.alive : Multiset String)
            + (((d1 ++ d2).map Prod.fst : List String) : Multiset String)
        rw [coe_erase_mset, hs.threads_eq, hdm]
        rw [Multiset.erase_add_right_pos _ (Multiset.mem_cons_self n _)]
        rw [Multiset.erase_cons_head]
      · intro hq
        replace hq : s.pc = PC.forCheck := hq
        rcases hpc with h | h <;> rw [h] at hq <;> exact PC.noConfusion hq
      · intro hq
        replace hq : s.pc = PC.drainCheck := hq
        rcases hpc with h | h <;> rw [h] at hq <;> exact PC.noConfusion hq
      · intro hq
        replace hq : s.pc = PC.done := hq
        rcases hpc with h | h <;> rw [h] at hq <;> exact PC.noConfusion hq
      · rcases hpc with h | h
        · exact Or.inr (Or.inl h)
        · rcases hs.pending_phase with h2 | h2 | h2
          · rw [h] at h2; exact PC.noConfusion h2
          · rw [h] at h2; exact PC.noConfusion h2
          · exact Or.inr (Or.inr h2)
  | dispatch hd t hpc hp hcap =>
      refine ⟨?_, ?_, ?_, fun _ => rfl, ?_, ?_, Or.inl rfl⟩
      · show (s.dispatched ++ [hd]) ++ t = nodes
        rw [List.append_assoc, List.singleton_append, ← hp]
        exact hs.disp_pending
      · show (s.copyOfNodes : Multiset String) =
          (t : Multiset String) + ((s.allThreads ++ [hd] : List String) : Multiset String)
        rw [hs.copy_eq, hp]
        simp only [coe_append_mset, Multiset.coe_singleton, ← Multiset.cons_coe,
          ← Multiset.singleton_add, Multiset.coe_nil]
        abel
      · show ((s.allThreads ++ [hd] : List String) : Multiset String) =
          ((hd :: s.alive : List String) : Multiset String)
            + ((s.dead.map Prod.fst : List String) : Multiset String)
        simp only [coe_append_mset, Multiset.coe_singleton, ← Multiset.cons_coe,
          ← Multiset.singleton_add, Multiset.coe_nil]
        rw [hs.threads_eq]
        abel
      · intro hq; exact PC.noConfusion hq
      · intro hq; exact PC.noConfusion hq
  | drainEnter hpc hne =>
      refine ⟨hs.disp_pending, hs.copy_eq, hs.threads_eq, ?_, ?_, ?_, ?_⟩
      · intro hq; exact PC.noConfusion hq
      · intro hq; exact PC.noConfusion hq
      · intro hq; exact PC.noConfusion hq
      · rcases hs.pending_phase with h2 | h2 | h2
        · rw [hpc] at h2; exact PC.noConfusion h2
        · rw [hpc] at h2; exact PC.noConfusion h2
        · exact Or.inr (Or.inr h2)
  | drainPersist hpc hcap =>
      refine ⟨hs.disp_pending, hs.copy_eq, hs.threads_eq, ?_, ?_, ?_, ?_⟩
      · intro hq; exact PC.noConfusion hq
      · intro _; exact Or.inr rfl
      · intro hq; exact PC.noConfusion hq
      · rcases hs.pending_phase with h2 | h2 | h2
        · rw [hpc] at h2; exact PC.noConfusion h2
        · rw [hpc] at h2; exact PC.noConfusion h2
        · exact Or.inr (Or.inr h2)
  | drainExit hpc he =>
      have h3 := hs.copy_eq
      rw [he] at h3
      have h5 : s.pending ++ s.allThreads = [] := by
        apply (Multiset.coe_eq_zero (s.pending ++ s.allThreads)).mp
        rw [coe_append_mset, ← h3]
        exact Multiset.coe_nil
      have hpe : s.pending = [] := (List.append_eq_nil.mp h5).1
      have hae : s.allThreads = [] := (List.append_eq_nil.mp h5).2
      refine ⟨hs.disp_pending, hs.copy_eq, hs.threads_eq, ?_, ?_, ?_, Or.inr (Or.inr hpe)⟩
      · intro hq; exact PC.noConfusion hq
      · intro hq; exact PC.noConfusion hq
      · intro _
        refine ⟨?_, he⟩
        rcases hs.qf_drainCheck hpc with h2 | h2
        · rw [h2, he]
        · rw [h2, hae]

theorem dinv_init (nodes : List String) : DInv nodes (initState nodes) := by
  refine ⟨rfl, ?_, ?_, fun _ => rfl, ?_, ?_, Or.inl rfl⟩
  · show (nodes : Multiset String) = (nodes : Multiset String) + (([] : List String) : Multiset String)
    rw [Multiset.coe_nil, add_zero]
  · simp [initState]
  · intro hq; exact PC.noConfusion hq
  · intro hq; exact PC.noConfusion hq

theorem dinv_reachable (N : Nat) (nodes : List String) (s : DState)
    (hr : Reachable N nodes s) : DInv nodes s := by
  induction hr with
  | refl => exact dinv_init nodes
  | tail _ hstep ih => exact dinv_step _ _ _ _ ih hstep

theorem alive_bound_step (N : Nat) (s s2 : DState)
    (hs : s.alive.length ≤ N) (hstep : Step N s s2) : s2.alive.length ≤ N := by
  cases hstep with
  | finish n c hn => exact le_trans (List.Sublist.length_le (List.erase_sublist _ _)) hs
  | forEnter _ _ => exact hs
  | forDone _ _ => exact hs
  | reap d1 d2 n c _ _ => exact hs
  | dispatch hd t _ _ hcap => exact Nat.succ_le_of_lt hcap
  | drainEnter _ _ => exact hs
  | drainPersist _ _ => exact hs
  | drainExit _ _ => exact hs

theorem alive_bound_reachable (N : Nat) (nodes : List String) (s : DState)
    (hr : Reachable N nodes s) : s.alive.length ≤ N := by
  induction hr with
  | refl => exact Nat.zero_le N
  | tail _ hstep ih => exact alive_bound_step _ _ _ ih hstep

-- ===================== Claims about the dispatcher ======================

/-- C1: for every concurrency limit N >= 1 and every queue of pending
relative paths, at no reachable point of the dispatcher's run are more
than N worker threads live, and any step that enlarges the set of live
workers (a thread start) happens only from a state in which the count of
live workers has dropped below N. -/
theorem dispatcher_concurrency_bound (N : Nat) (nodes : List String) (s : DState)
    (hN : 1 ≤ N) (hr : Reachable N nodes s) :
    s.alive.length ≤ N ∧
    ∀ s2, Step N s s2 → s.alive.length < s2.alive.length → s.alive.length < N := by
  refine ⟨alive_bound_reachable N nodes s hr, ?_⟩
  intro s2 hstep hlt
  cases hstep with
  | finish n c hn =>
      exact absurd hlt (Nat.not_lt.mpr (List.Sublist.length_le (List.erase_sublist _ _)))
  | forEnter _ _ => exact absurd hlt (lt_irrefl _)
  | forDone _ _ => exact absurd hlt (lt_irrefl _)
  | reap d1 d2 n c _ _ => exact absurd hlt (lt_irrefl _)
  | dispatch hd t _ _ hcap => exact hcap
  | drainEnter _ _ => exact absurd hlt (lt_irrefl _)
  | drainPersist _ _ => exact absurd hlt (lt_irrefl _)
  | drainExit _ _ => exact absurd hlt (lt_irrefl _)

/-- Witness for C1 at N = 1 and queue ["a"], evaluated at the initial
state. -/
theorem dispatcher_concurrency_bound_witness :
    (initState ["a"]).alive.length ≤ 1 ∧
    ∀ s2, Step 1 (initState ["a"]) s2 →
      (initState ["a"]).alive.length < s2.alive.length →
      (initState ["a"]).alive.length < 1 :=
  dispatcher_concurrency_bound 1 ["a"] (initState ["a"]) (by decide)
    Relation.ReflTransGen.refl

/-- C2: whenever the dispatcher's run returns (program counter `done`),
every queued item has been dispatched exactly once, the in-memory
remaining-work list copy_of_nodes is empty, the persisted queue file is
empty, and the run can only have ended with the remaining-work list
empty. -/
theorem dispatcher_total_retirement (N : Nat) (nodes : List String) (s : DState)
    (hnd : nodes.Nodup) (hr : Reachable N nodes s) (hdone : s.pc = PC.done) :
    s.dispatched = nodes ∧ (∀ x ∈ nodes, s.dispatched.count x = 1) ∧
    s.copyOfNodes = [] ∧ s.queueFile = [] ∧ s.pending = [] := by
  have hinv := dinv_reachable N nodes s hr
  have hqc := hinv.at_done hdone
  have h3 := hinv.copy_eq
  rw [hqc.2] at h3
  have h5 : s.pending ++ s.allThreads = [] := by
    apply (Multiset.coe_eq_zero _).mp
    rw [coe_append_mset, ← h3]
    exact Multiset.coe_nil
  have hpe : s.pending = [] := (List.append_eq_nil.mp h5).1
  have hdisp : s.dispatched = nodes := by
    have h6 := hinv.disp_pending
    rw [hpe, List.append_nil] at h6
    exact h6
  refine ⟨hdisp, ?_, hqc.2, hqc.1, hpe⟩
  intro x hx
  rw [hdisp]
  exact List.count_eq_one_of_mem hnd hx

/-- Witness for C2: a complete run with N = 1 and queue ["a"], ending in
the `done` state with the item dispatched once and both the in-memory
list and the queue file empty. -/
theorem dispatcher_total_retirement_witness :
    (DState.mk PC.done [] [] [] [] [] ["a"] []).dispatched = ["a"] ∧
    (∀ x ∈ ["a"], (DState.mk PC.done [] [] [] [] [] ["a"] []).dispatched.count x = 1) ∧
    (DState.mk PC.done [] [] [] [] [] ["a"] []).copyOfNodes = [] ∧
    (DState.mk PC.done [] [] [] [] [] ["a"] []).queueFile = [] ∧
    (DState.mk PC.done [] [] [] [] [] ["a"] []).pending = [] := by
  have h0 : Reachable 1 ["a"] (initState ["a"]) := Relation.ReflTransGen.refl
  have h1 := Relation.ReflTransGen.tail h0 (Step.forEnter (initState ["a"]) rfl (by decide))
  have h2 := Relation.ReflTransGen.tail h1 (Step.dispatch _ "a" [] rfl rfl (by decide))
  have h3 := Relation.ReflTransGen.tail h2 (Step.forDone _ rfl rfl)
  have h4 := Relation.ReflTransGen.tail h3 (Step.drainEnter _ rfl (by decide))
  have h5 := Relation.ReflTransGen.tail h4 (Step.finish _ "a" 0 (by decide))
  have h6 := Relation.ReflTransGen.tail h5 (Step.reap _ [] [] "a" 0 (Or.inr rfl) rfl)
  have h7 := Relation.ReflTransGen.tail h6 (Step.drainPersist _ rfl (by decide))
  have h8 := Relation.ReflTransGen.tail h7 (Step.drainExit _ rfl (by decide))
  exact dispatcher_total_retirement 1 ["a"] (DState.mk PC.done [] [] [] [] [] ["a"] [])
    (by decide) h8 rfl

/-- C7: a copy task whose rsync subprocess exits non-zero logs the
captured stderr as an error but returns control normally, and the
dispatcher still retires the item: from any reachable state in a wait
phase with such a finished worker recorded, one further step reaches a
state in which the item has been removed from the remaining-work list,
with the pending queue and the dispatcher position unchanged, so sibling
items continue to be dispatched as before. -/
theorem copy_failure_nonfatal (filePath : String) (res : ProcResult)
    (hrc : res.returncode ≠ 0) :
    rsyncFile filePath res =
      Except.ok ⟨res.stderrLines, res.stdoutLines, filePath⟩ ∧
    ∀ (N : Nat) (nodes : List String) (s : DState) (n : String),
      Reachable N nodes s → (s.pc = PC.forWait ∨ s.pc = PC.drainWait) →
      (n, res.returncode) ∈ s.dead →
      ∃ s2, Reachable N nodes s2 ∧ s2.copyOfNodes = s.copyOfNodes.erase n ∧
        s2.pending = s.pending ∧ s2.pc = s.pc := by
  constructor
  · simp [rsyncFile, hrc]
  · intro N nodes s n hr hpc hdm
    obtain ⟨l1, l2, hsplit⟩ := List.append_of_mem hdm
    exact ⟨_, Relation.ReflTransGen.tail hr
      (Step.reap s l1 l2 n res.returncode hpc hsplit), rfl, rfl, rfl⟩

/-- Witness for C7 at exit status 1. -/
theorem copy_failure_nonfatal_witness :
    rsyncFile "a" ⟨1, ["o"], ["e"]⟩ = Except.ok ⟨["e"], ["o"], "a"⟩ ∧
    ∀ (N : Nat) (nodes : List String) (s : DState) (n : String),
      Reachable N nodes s → (s.pc = PC.forWait ∨ s.pc = PC.drainWait) →
      (n, (⟨1, ["o"], ["e"]⟩ : ProcResult).returncode) ∈ s.dead →
      ∃ s2, Reachable N nodes s2 ∧ s2.copyOfNodes = s.copyOfNodes.erase n ∧
        s2.pending = s.pending ∧ s2.pc = s.pc :=
  copy_failure_nonfatal "a" ⟨1, ["o"], ["e"]⟩ (by decide)

-- ================= Claims about the queue file ==========================

theorem pyLinesAux_newline_split (x : List Char) : ∀ (rest acc : List Char), '\n' ∉ x →
    pyLinesAux (x ++ '\n' :: rest) acc =
      ((acc.reverse ++ x) ++ ['\n']) :: pyLinesAux rest [] := by
  induction x with
  | nil =>
      intro rest acc _
      simp [pyLinesAux]
  | cons c x ih =>
      intro rest acc hx
      have hc : ¬ (c = '\n') := fun h => hx (by rw [h]; exact List.mem_cons_self _ _)
      have hx2 : '\n' ∉ x := fun hm => hx (List.mem_cons_of_mem _ hm)
      rw [List.cons_append]
      simp only [pyLinesAux]
      rw [if_neg hc, ih rest (c :: acc) hx2]
      simp

theorem pyLines_updateQueueFile (S : List (List Char)) (h : ∀ x ∈ S, '\n' ∉ x) :
    pyLines (updateQueueFile S) = S.map (fun x => x ++ ['\n']) := by
  induction S with
  | nil => rfl
  | cons x xs ih =>
      have hx : '\n' ∉ x := h x (List.mem_cons_self _ _)
      have hxs : ∀ y ∈ xs, '\n' ∉ y := fun y hy => h y (List.mem_cons_of_mem _ hy)
      have e1 : updateQueueFile (x :: xs) = x ++ '\n' :: updateQueueFile xs := by
        simp [updateQueueFile]
      rw [e1]
      show pyLinesAux (x ++ '\n' :: updateQueueFile xs) [] = _
      rw [pyLinesAux_newline_split x (updateQueueFile xs) [] hx]
      simp only [List.reverse_nil, List.nil_append, List.map_cons]
      exact congrArg _ (ih hxs)

theorem pyStrip_append_newline (x : List Char) : pyStrip (x ++ ['\n']) = pyStrip x := by
  have hsp : isPySpace '\n' = true := by decide
  have h1 : (x ++ ['\n']).reverse.dropWhile isPySpace = x.reverse.dropWhile isPySpace := by
    rw [List.reverse_append]
    show (('\n' :: x.reverse).dropWhile isPySpace) = x.reverse.dropWhile isPySpace
    rw [List.dropWhile_cons, if_pos hsp]
  unfold pyStrip pyRstrip
  rw [h1]

theorem univNewlines_cons (c : Char) (r : List Char) (hc : c ≠ '\r') :
    univNewlines (c :: r) = c :: univNewlines r := by
  cases r with
  | nil =>
      show (if c = '\r' then ['\n'] else [c]) = c :: univNewlines []
      rw [if_neg hc]
      rfl
  | cons c2 r2 =>
      show (if c = '\r' then
              (if c2 = '\n' then '\n' :: univNewlines r2
               else '\n' :: univNewlines (c2 :: r2))
            else c :: univNewlines (c2 :: r2)) = c :: univNewlines (c2 :: r2)
      rw [if_neg hc]

theorem univNewlines_no_cr (l : List Char) (h : '\r' ∉ l) : univNewlines l = l := by
  induction l with
  | nil => rfl
  | cons c r ih =>
      have hc : c ≠ '\r' := fun he => h (by rw [← he]; exact List.mem_cons_self _ _)
      rw [univNewlines_cons c r hc, ih (fun hm => h (List.mem_cons_of_mem _ hm))]

theorem updateQueueFile_no_cr (S : List (List Char)) (h : ∀ x ∈ S, '\r' ∉ x) :
    '\r' ∉ updateQueueFile S := by
  intro hmem
  rw [updateQueueFile, List.mem_flatMap] at hmem
  obtain ⟨x, hx, hin⟩ := hmem
  rcases List.mem_append.mp hin with h2 | h2
  · exact h x hx h2
  · rw [List.mem_singleton] at h2
    exact absurd h2 (by decide)

theorem updateQueueFile_ne_nil (S : List (List Char)) (h : S ≠ []) :
    updateQueueFile S ≠ [] := by
  cases S with
  | nil => exact absurd rfl h
  | cons x xs => simp [updateQueueFile]

/-- C3 counterexample: persisting the single-element queue ["a "] (a path
with a trailing space) and loading it back yields ["a"]: loadQueue's
str.strip() removed the trailing space, not only the line separator, so
the loaded sequence is not set-equal to the persisted one. -/
theorem queue_roundtrip_cex :
    (loadQueue (some (updateQueueFile [['a', ' ']])) []).1 = [['a']] ∧
    ¬ (['a', ' '] ∈ (loadQueue (some (updateQueueFile [['a', ' ']])) []).1) := by
  decide

/-- C3 amended: persisting a non-empty queue S and then loading the queue
file back returns exactly S (and in particular a sequence set-equal to S)
provided every entry of S contains no line separator ("\\n" or "\\r",
since text-mode reading treats both as line breaks) and carries no
leading or trailing whitespace in Python's full Unicode whitespace set;
the file is parsed one entry per line with leading and trailing
whitespace stripped by str.strip() (not only line separators), and the
discovery function is not invoked. -/
theorem queue_roundtrip_amended (S discovered : List (List Char))
    (hS : S ≠ []) (hw : ∀ x ∈ S, '\n' ∉ x ∧ '\r' ∉ x ∧ pyStrip x = x) :
    (loadQueue (some (updateQueueFile S)) discovered).1 = S ∧
    (loadQueue (some (updateQueueFile S)) discovered).2.1 = false := by
  have hne := updateQueueFile_ne_nil S hS
  have huniv : univNewlines (updateQueueFile S) = updateQueueFile S :=
    univNewlines_no_cr _ (updateQueueFile_no_cr S (fun x hx => (hw x hx).2.1))
  have hlines := pyLines_updateQueueFile S (fun x hx => (hw x hx).1)
  have hmain : (pyLines (univNewlines (updateQueueFile S))).map pyStrip = S := by
    rw [huniv, hlines, List.map_map]
    have h2 : ∀ x ∈ S, (pyStrip ∘ fun x => x ++ ['\n']) x = id x := by
      intro x hx
      show pyStrip (x ++ ['\n']) = x
      rw [pyStrip_append_newline]
      exact (hw x hx).2.2
    rw [List.map_congr_left h2, List.map_id]
  constructor
  · show (loadQueue (some (updateQueueFile S)) discovered).1 = S
    simp only [loadQueue]
    rw [if_neg hne]
    exact hmain
  · show (loadQueue (some (updateQueueFile S)) discovered).2.1 = false
    simp only [loadQueue]
    rw [if_neg hne]

/-- Witness for the amended C3 at S = ["a"]. -/
theorem queue_roundtrip_amended_witness :
    (loadQueue (some (updateQueueFile [['a']])) []).1 = [['a']] ∧
    (loadQueue (some (updateQueueFile [['a']])) []).2.1 = false :=
  queue_roundtrip_amended [['a']] [] (by decide) (by decide)

-- ==================== Claims about leaf discovery =======================

theorem fsNode_induction (P : FSNode → Prop) (Q : FSChildren → Prop)
    (hf : ∀ n, P (.file n))
    (hd : ∀ n cs, Q cs → P (.dir n cs))
    (hn : Q .nil)
    (hc : ∀ c cs, P c → Q cs → Q (.cons c cs)) : ∀ t, P t :=
  fun t => @FSNode.rec P Q hf hd hn hc t

theorem pathBasename_append (cur : SegPath) (x : String) :
    pathBasename (cur ++ [x]) = x := by
  simp [pathBasename]

theorem name_mem_allNames (t : FSNode) : t.name ∈ t.allNames := by
  cases t with
  | file n => simp [FSNode.name, FSNode.allNames]
  | dir n cs => simp [FSNode.name, FSNode.allNames]

theorem findAll_eq_spec (ignore : List String) (t : FSNode) :
    ∀ cur, (∀ n ∈ t.allNames, n ∉ ignore) → pathBasename cur ∉ ignore →
      findAllLeafNodes ignore cur t = specLeafPaths cur t := by
  refine fsNode_induction
    (fun t => ∀ cur, (∀ n ∈ t.allNames, n ∉ ignore) → pathBasename cur ∉ ignore →
      findAllLeafNodes ignore cur t = specLeafPaths cur t)
    (fun cs => ∀ cur, (∀ n ∈ cs.allNames, n ∉ ignore) →
      findAllLeafChildren ignore cur cs = specLeafChildren cur cs)
    ?_ ?_ ?_ ?_ t
  · intro n cur _ hcur
    rw [findAllLeafNodes, if_neg hcur]
    rfl
  · intro n cs ih cur hnames hcur
    rw [findAllLeafNodes, if_neg hcur]
    exact ih cur (fun m hm => hnames m (by
      show m ∈ FSNode.allNames (FSNode.dir n cs)
      rw [FSNode.allNames]
      exact List.mem_cons_of_mem _ hm))
  · intro cur _
    rfl
  · intro c cs ihc ihcs cur hnames
    have hcnames : ∀ m ∈ c.allNames, m ∉ ignore := fun m hm => hnames m (by
      show m ∈ FSChildren.allNames (FSChildren.cons c cs)
      rw [FSChildren.allNames]
      exact List.mem_append_left _ hm)
    have hcsnames : ∀ m ∈ cs.allNames, m ∉ ignore := fun m hm => hnames m (by
      show m ∈ FSChildren.allNames (FSChildren.cons c cs)
      rw [FSChildren.allNames]
      exact List.mem_append_right _ hm)
    have hcur2 : pathBasename (cur ++ [c.name]) ∉ ignore := by
      rw [pathBasename_append]
      exact hcnames c.name (name_mem_allNames c)
    rw [findAllLeafChildren, specLeafChildren, ihc (cur ++ [c.name]) hcnames hcur2,
      ihcs cur hcsnames]

/-- C4: on a directory tree containing no names from the exclusion set,
discovery started at the empty relative path returns exactly the
non-directory files of the tree, each at its path relative to the source
root, in depth-first order following each directory's listing order (the
unfiltered spec-side enumeration specLeafPaths). -/
theorem discovery_correctness (t : FSNode)
    (hn : ∀ n ∈ t.allNames, n ∉ m_ignoreFiles) :
    findAllLeafNodes m_ignoreFiles [] t = specLeafPaths [] t :=
  findAll_eq_spec m_ignoreFiles t [] hn (by decide)

/-- Witness for C4 on a small clean tree. -/
theorem discovery_correctness_witness :
    findAllLeafNodes m_ignoreFiles [] sampleCleanTree = specLeafPaths [] sampleCleanTree :=
  discovery_correctness sampleCleanTree (by decide)

theorem findAll_segments (ignore : List String) (t : FSNode) :
    ∀ cur p, p ∈ findAllLeafNodes ignore cur t →
      ∃ rest, p = cur ++ rest ∧ (∀ sgm ∈ rest, sgm ∉ ignore) ∧
        pathBasename cur ∉ ignore := by
  refine fsNode_induction
    (fun t => ∀ cur p, p ∈ findAllLeafNodes ignore cur t →
      ∃ rest, p = cur ++ rest ∧ (∀ sgm ∈ rest, sgm ∉ ignore) ∧
        pathBasename cur ∉ ignore)
    (fun cs => ∀ cur p, p ∈ findAllLeafChildren ignore cur cs →
      ∃ nm rest, p = cur ++ nm :: rest ∧ (∀ sgm ∈ nm :: rest, sgm ∉ ignore))
    ?_ ?_ ?_ ?_ t
  · intro n cur p hp
    by_cases hbc : pathBasename cur ∈ ignore
    · rw [findAllLeafNodes, if_pos hbc] at hp
      exact absurd hp (List.not_mem_nil p)
    · rw [findAllLeafNodes, if_neg hbc] at hp
      have hpc : p = cur := List.mem_singleton.mp hp
      exact ⟨[], by simp [hpc], by simp, hbc⟩
  · intro n cs ih cur p hp
    by_cases hbc : pathBasename cur ∈ ignore
    · rw [findAllLeafNodes, if_pos hbc] at hp
      exact absurd hp (List.not_mem_nil p)
    · rw [findAllLeafNodes, if_neg hbc] at hp
      obtain ⟨nm, rest, hpe, hclean⟩ := ih cur p hp
      exact ⟨nm :: rest, hpe, hclean, hbc⟩
  · intro cur p hp
    rw [findAllLeafChildren] at hp
    exact absurd hp (List.not_mem_nil p)
  · intro c cs ihc ihcs cur p hp
    rw [findAllLeafChildren] at hp
    rcases List.mem_append.mp hp with h | h
    · obtain ⟨rest, hpe, hclean, hbase⟩ := ihc (cur ++ [c.name]) p h
      refine ⟨c.name, rest, ?_, ?_⟩
      · rw [hpe, List.append_assoc, List.singleton_append]
      · intro sgm hs
        rcases List.mem_cons.mp hs with h2 | h2
        · rw [h2]
          rw [pathBasename_append] at hbase
          exact hbase
        · exact hclean sgm h2
    · obtain ⟨nm, rest, hpe, hclean⟩ := ihcs cur p h
      exact ⟨nm, rest, hpe, hclean⟩

/-- C5: no path emitted by discovery (started at the empty relative path)
contains any segment from the fixed exclusion set: a filtered entry is
neither emitted itself nor descended into, so none of its descendants
appear either. -/
theorem filter_exclusion (t : FSNode) (p : SegPath)
    (hp : p ∈ findAllLeafNodes m_ignoreFiles [] t) :
    ∀ sgm ∈ p, sgm ∉ m_ignoreFiles := by
  obtain ⟨rest, hpe, hclean, _⟩ := findAll_segments m_ignoreFiles t [] p hp
  rw [hpe, List.nil_append]
  exact hclean

/-- Witness for C5: the path ["a.txt"] discovered in a tree holding a
.Trashes directory (with a child) and a .DS_Store file has no ignored
segment. -/
theorem filter_exclusion_witness : "a.txt" ∉ m_ignoreFiles :=
  filter_exclusion sampleFilteredTree ["a.txt"] (by decide) "a.txt" (by decide)

-- ==================== Claims about the orchestrator =====================

/-- C6: whenever the canonical final path segments of source and target
differ, run returns the SOURCE_TARGET_MISMATCH status with no queue
loaded or built and no dispatch started. -/
theorem name_mismatch_rejection (w : World) (cfg : RunConfig)
    (h : pyBasename (w.realpath cfg.sourcePath) ≠ pyBasename (w.realpath cfg.targetPath)) :
    run w cfg = Except.ok (ERR.SOURCE_TARGET_MISMATCH, false, false) := by
  have hb : leafNodesMatch w cfg.sourcePath cfg.targetPath = false := by
    unfold leafNodesMatch
    exact beq_eq_false_iff_ne.mpr h
  simp [run, hb]

/-- Witness for C6 at source /a/b/foo and target /x/y/bar. -/
theorem name_mismatch_rejection_witness :
    run wNameMismatch cfgNameMismatch =
      Except.ok (ERR.SOURCE_TARGET_MISMATCH, false, false) :=
  name_mismatch_rejection wNameMismatch cfgNameMismatch (by decide)

/-- C8: when the names match, the source checks out, and the destination
is missing or not a directory, then with the create option disabled run
fails with TARGET_PATH_DOES_NOT_EXIST before any work is dispatched;
with create enabled and os.makedirs succeeding the run proceeds to load
the queue and dispatch; and with create enabled but creation failing the
error escapes as the creation exception, not as the
TARGET_PATH_DOES_NOT_EXIST status. -/
theorem target_missing_handling (w : World) (cfg : RunConfig)
    (hmatch : leafNodesMatch w cfg.sourcePath cfg.targetPath = true)
    (hsrc : confirmFolderExists w cfg.sourcePath = true)
    (htrg : confirmFolderExists w cfg.targetPath = false) :
    (cfg.create = false →
      run w cfg = Except.ok (ERR.TARGET_PATH_DOES_NOT_EXIST, false, false)) ∧
    (cfg.create = true → w.makedirsOk = true →
      run w cfg = Except.ok (ERR.OK, true, true)) ∧
    (cfg.create = true → w.makedirsOk = false →
      run w cfg = Except.error PyExc.osError ∧
      ∀ b1 b2 : Bool, run w cfg ≠ Except.ok (ERR.TARGET_PATH_DOES_NOT_EXIST, b1, b2)) := by
  refine ⟨?_, ?_, ?_⟩
  · intro hc
    simp [run, hmatch, hsrc, htrg, hc]
  · intro hc hm
    simp [run, hmatch, hsrc, htrg, hc, hm]
  · intro hc hm
    constructor
    · simp [run, hmatch, hsrc, htrg, hc, hm]
    · intro b1 b2
      simp [run, hmatch, hsrc, htrg, hc, hm]

/-- Witness for C8 with a world in which only the source exists. -/
theorem target_missing_handling_witness :
    (cfgTargetMissing.create = false →
      run wTargetMissing cfgTargetMissing =
        Except.ok (ERR.TARGET_PATH_DOES_NOT_EXIST, false, false)) ∧
    (cfgTargetMissing.create = true → wTargetMissing.makedirsOk = true →
      run wTargetMissing cfgTargetMissing = Except.ok (ERR.OK, true, true)) ∧
    (cfgTargetMissing.create = true → wTargetMissing.makedirsOk = false →
      run wTargetMissing cfgTargetMissing = Except.error PyExc.osError ∧
      ∀ b1 b2 : Bool, run wTargetMissing cfgTargetMissing ≠
        Except.ok (ERR.TARGET_PATH_DOES_NOT_EXIST, b1, b2)) :=
  target_missing_handling wTargetMissing cfgTargetMissing (by decide) (by decide) (by decide)

-- ================ Claims about the rsync command line ===================

/-- C9: whenever the execute flag was not supplied (so m_dry is true),
every rsync command line the program constructs contains the --dry-run
token, whatever the move and fast flags and paths are: by default the
program only performs a dry run. -/
theorem default_dry_run (a : CliArgs) (src trg : List Char)
    (h : a.execute = false) :
    "--dry-run".data ∈ rsyncCmdArr (m_dry a) a.move a.fast src trg := by
  apply List.mem_append_left
  obtain ⟨e, mv, f⟩ := a
  cases h
  cases mv <;> cases f <;> decide

/-- Witness for C9 with all flags at their defaults. -/
theorem default_dry_run_witness :
    "--dry-run".data ∈
      rsyncCmdArr (m_dry ⟨false, false, false⟩) false false "/s/a".data "/t".data :=
  default_dry_run ⟨false, false, false⟩ "/s/a".data "/t".data rfl

-- ================== Claim about the throughput figure ===================

/-- C10: the throughput computation divides only when the elapsed time is
strictly positive; otherwise the reported rate is exactly 0, and in the
positive case it is the file size divided by 1024000 and by the elapsed
time. -/
theorem rate_no_div_by_zero (filesize delta : Rat) :
    (delta ≤ 0 → rateMBps filesize delta = 0) ∧
    (0 < delta → rateMBps filesize delta = filesize / 1024000 / delta) := by
  constructor
  · intro h
    rw [rateMBps, if_neg (not_lt.mpr h)]
  · intro h
    rw [rateMBps, if_pos h]

/-- Witness for C10 at elapsed times 0 and 2. -/
theorem rate_no_div_by_zero_witness :
    rateMBps 5 0 = 0 ∧ rateMBps 5 2 = 5 / 1024000 / 2 :=
  ⟨(rate_no_div_by_zero 5 0).1 le_rfl, (rate_no_div_by_zero 5 2).2 (by norm_num)⟩
